import Mathlib

/-!
# Verification of the WAD archive decoder (`src/src/wad.rs`)

Shallow embedding of the archive-header/directory decoder from
`league-toolkit`'s `wad.rs`.  The external byte-stream reader
(`BinaryReader`, out of scope for the repository core) is modelled as a
list of bytes consumed from the front: it yields little-endian unsigned
integers, fixed-length byte runs and fixed-length text (represented as
its raw bytes), failing with an I/O error when the stream is exhausted.
Machine integers are modelled as `Nat` (unsigned fields) and `Int`
(the two signed 32-bit size fields, decoded by two's complement).
The `HashMap` directory is modelled as an association list built by
insert-or-fail, mirroring the `hash_map::Entry` match in `Wad::read`.
-/

deriving instance DecidableEq for Except

namespace Wadlib

/-- Errors of the decoder, mirroring `WadError` in `wad.rs`.  The payload of
`IoError` is irrelevant to the decoder logic, so it is dropped; the
`InvalidSignature` text payload is represented by its raw bytes. -/
inductive WadError where
  | ioError : WadError
  | invalidSignature : List Nat → WadError
  | unsupportedVersion : Nat → Nat → WadError
  | duplicateEntry : Nat → WadError
  | unknownEntryDataFormat : Nat → WadError
deriving DecidableEq, Repr

/-- `BinaryReader::read_bytes(n)`: consume exactly `n` bytes from the front of
the stream, failing with an I/O error when fewer are available. -/
def readBytes (n : Nat) (s : List Nat) : Except WadError (List Nat × List Nat) :=
  if n ≤ s.length then .ok (s.take n, s.drop n) else .error .ioError

/-- `BinaryReader::read_string(n)`: fixed-length text, modelled as its bytes. -/
def readString (n : Nat) (s : List Nat) : Except WadError (List Nat × List Nat) :=
  readBytes n s

/-- Little-endian value of a byte run (first byte least significant). -/
def leVal : List Nat → Nat
  | [] => 0
  | b :: rest => b + 256 * leVal rest

/-- `BinaryReader::read_u8`. -/
def readU8 (s : List Nat) : Except WadError (Nat × List Nat) :=
  match s with
  | [] => .error .ioError
  | b :: rest => .ok (b, rest)

/-- `BinaryReader::read_u16` (little-endian). -/
def readU16 (s : List Nat) : Except WadError (Nat × List Nat) := do
  let (bs, s) ← readBytes 2 s
  pure (leVal bs, s)

/-- `BinaryReader::read_u32` (little-endian). -/
def readU32 (s : List Nat) : Except WadError (Nat × List Nat) := do
  let (bs, s) ← readBytes 4 s
  pure (leVal bs, s)

/-- `BinaryReader::read_u64` (little-endian). -/
def readU64 (s : List Nat) : Except WadError (Nat × List Nat) := do
  let (bs, s) ← readBytes 8 s
  pure (leVal bs, s)

/-- Two's-complement reinterpretation of an unsigned 32-bit value. -/
def toI32 (n : Nat) : Int :=
  if n % 2 ^ 32 < 2 ^ 31 then ((n % 2 ^ 32 : Nat) : Int)
  else ((n % 2 ^ 32 : Nat) : Int) - 2 ^ 32

/-- `BinaryReader::read_i32` (little-endian, signed). -/
def readI32 (s : List Nat) : Except WadError (Int × List Nat) := do
  let (bs, s) ← readBytes 4 s
  pure (toI32 (leVal bs), s)

/-- `EntryDataFormat` from `wad.rs`: five variants with `repr(u8)`
discriminants 0..4 in declaration order. -/
inductive EntryDataFormat where
  | raw
  | gZip
  | fileRedirection
  | zstd
  | unknown
deriving DecidableEq, Repr

/-- `num_enum::TryFromPrimitive` conversion for `EntryDataFormat`, with the
out-of-range error already mapped to `WadError::UnknownEntryDataFormat`
carrying the offending byte, as `Entry::read` does. -/
def EntryDataFormat.tryFrom (b : Nat) : Except WadError EntryDataFormat :=
  if b = 0 then .ok .raw
  else if b = 1 then .ok .gZip
  else if b = 2 then .ok .fileRedirection
  else if b = 3 then .ok .zstd
  else if b = 4 then .ok .unknown
  else .error (.unknownEntryDataFormat b)

/-- `EntryDataChecksum` from `wad.rs`. -/
inductive EntryDataChecksum where
  | sha256 : List Nat → EntryDataChecksum
  | xxHash3 : List Nat → EntryDataChecksum
  | none : EntryDataChecksum
deriving DecidableEq, Repr

/-- `Entry` from `wad.rs`. -/
structure Entry where
  xxhash : Nat
  compressedSize : Int
  uncompressedSize : Int
  dataFormat : EntryDataFormat
  dataChecksum : EntryDataChecksum
  dataOffset : Nat
  isDuplicated : Bool
deriving DecidableEq, Repr

/-- The version-dependent checksum block of `Entry::read` (lines 143-151):
no bytes for major < 2, otherwise 8 bytes tagged `XxHash3` exactly for
version 3.1 and `Sha256` for every other major ≥ 2. -/
def readChecksum (major minor : Nat) (s : List Nat) :
    Except WadError (EntryDataChecksum × List Nat) :=
  if 2 ≤ major then
    if major = 3 ∧ minor = 1 then do
      let (bs, s) ← readBytes 8 s
      pure (EntryDataChecksum.xxHash3 bs, s)
    else do
      let (bs, s) ← readBytes 8 s
      pure (EntryDataChecksum.sha256 bs, s)
  else pure (EntryDataChecksum.none, s)

/-- `Entry::read` from `wad.rs`: 8-byte hash, 4-byte offset, two signed
4-byte sizes, 1-byte format discriminant (checked), 1-byte duplicate flag
(compared against 1), a discarded `u16`, then the version-dependent
checksum block. -/
def Entry.read (major minor : Nat) (s : List Nat) :
    Except WadError (Entry × List Nat) := do
  let (xxhash, s) ← readU64 s
  let (dataOffset, s) ← readU32 s
  let (compressedSize, s) ← readI32 s
  let (uncompressedSize, s) ← readI32 s
  let (fmtByte, s) ← readU8 s
  let dataFormat ← EntryDataFormat.tryFrom fmtByte
  let (dupByte, s) ← readU8 s
  let (_, s) ← readU16 s
  let (dataChecksum, s) ← readChecksum major minor s
  pure ({ xxhash, dataOffset, compressedSize, uncompressedSize,
          dataFormat, dataChecksum, isDuplicated := dupByte == 1 }, s)

/-- Lookup in the association-list model of the `HashMap` directory. -/
def lookupEntry (m : List (Nat × Entry)) (k : Nat) : Option Entry :=
  match m with
  | [] => Option.none
  | (k', v) :: rest => if k' = k then some v else lookupEntry rest k

/-- The directory-build loop of `Wad::read` (lines 112-119): `n` times,
decode one entry and insert it keyed by its `xxhash`, failing with
`DuplicateEntry` when the key is already present. -/
def processEntries (major minor : Nat) :
    Nat → List (Nat × Entry) → List Nat →
      Except WadError (List (Nat × Entry) × List Nat)
  | 0, acc, s => .ok (acc, s)
  | n + 1, acc, s => do
    let (entry, s) ← Entry.read major minor s
    match lookupEntry acc entry.xxhash with
    | some _ => .error (.duplicateEntry entry.xxhash)
    | Option.none => processEntries major minor n (acc ++ [(entry.xxhash, entry)]) s

/-- The magic token `"RW"` as bytes. -/
def rwMagic : List Nat := [82, 87]

/-- `Wad` from `wad.rs`: signature blob plus directory. -/
structure Wad where
  signature : List Nat
  entries : List (Nat × Entry)
deriving DecidableEq, Repr

/-- The version-dependent signature blob of `Wad::read` (lines 94-101):
`83 - L` bytes after a length byte for major 2, a fixed 256 bytes for
major 3, and nothing otherwise. -/
def readSignature (major : Nat) (s : List Nat) :
    Except WadError (List Nat × List Nat) :=
  if major = 2 then do
    let (length, s) ← readU8 s
    let (sig, s) ← readBytes (83 - length) s
    pure (sig, s)
  else if major = 3 then do
    let (sig, s) ← readBytes 256 s
    pure (sig, s)
  else pure (([] : List Nat), s)

/-- The legacy TOC fields of `Wad::read` (lines 105-108): two discarded
`u16` values, read only for majors 1 and 2. -/
def readLegacyToc (major : Nat) (s : List Nat) : Except WadError (List Nat) :=
  if major = 1 ∨ major = 2 then do
    let (_tocStartOffset, s) ← readU16 s
    let (_tocFileEntrySize, s) ← readU16 s
    pure s
  else pure s

/-- The header part of `Wad::read` (lines 83-110): magic check, version
check, version-dependent signature blob, discarded 8-byte field, and the
two discarded legacy TOC fields for majors 1 and 2.  Returns
`(major, minor, signature)` with the remaining stream. -/
def Wad.readHeader (s : List Nat) :
    Except WadError ((Nat × Nat × List Nat) × List Nat) := do
  let (magic, s) ← readString 2 s
  if magic ≠ rwMagic then
    throw (WadError.invalidSignature magic)
  else do
    let (major, s) ← readU8 s
    let (minor, s) ← readU8 s
    if 3 < major then
      throw (WadError.unsupportedVersion major minor)
    else do
      let (signature, s) ← readSignature major s
      let (_unknown1, s) ← readU64 s
      let s ← readLegacyToc major s
      pure ((major, minor, signature), s)

/-- `Wad::read` from `wad.rs`: header, 4-byte entry count, then the
directory-build loop. -/
def Wad.read (s : List Nat) : Except WadError (Wad × List Nat) := do
  let ((major, minor, signature), s) ← Wad.readHeader s
  let (entryCount, s) ← readU32 s
  let (entries, s) ← processEntries major minor entryCount [] s
  pure ({ signature, entries }, s)

/-! ## Basic lemmas about the byte-stream primitives -/

theorem except_ok_bind {α β : Type} (a : α) (f : α → Except WadError β) :
    (Except.ok a >>= f) = f a := rfl

theorem except_error_bind {α β : Type} (e : WadError) (f : α → Except WadError β) :
    ((Except.error e : Except WadError α) >>= f) = Except.error e := rfl

theorem except_pure_bind {α β : Type} (a : α) (f : α → Except WadError β) :
    ((pure a : Except WadError α) >>= f) = f a := rfl

theorem readBytes_of_le {n : Nat} {s : List Nat} (h : n ≤ s.length) :
    readBytes n s = .ok (s.take n, s.drop n) := by
  simp [readBytes, h]

theorem readBytes_append {n : Nat} (bs t : List Nat) (h : bs.length = n) :
    readBytes n (bs ++ t) = .ok (bs, t) := by
  subst h
  rw [readBytes_of_le (by simp)]
  rw [List.take_left, List.drop_left]

theorem readBytes_ok {n : Nat} {s bs s' : List Nat}
    (h : readBytes n s = .ok (bs, s')) :
    bs = s.take n ∧ s' = s.drop n ∧ n ≤ s.length := by
  unfold readBytes at h
  split at h
  · cases h
    exact ⟨rfl, rfl, by assumption⟩
  · cases h

theorem readBytes_mono {n : Nat} {s bs s₁ : List Nat} (t : List Nat)
    (h : readBytes n s = .ok (bs, s₁)) :
    readBytes n (s ++ t) = .ok (bs, s₁ ++ t) := by
  obtain ⟨rfl, rfl, hle⟩ := readBytes_ok h
  rw [readBytes_of_le (by simp; omega)]
  rw [List.take_append_of_le_length hle, List.drop_append_of_le_length hle]

theorem readU8_cons (b : Nat) (s : List Nat) : readU8 (b :: s) = .ok (b, s) := rfl

theorem readU8_ok {s : List Nat} {b : Nat} {s' : List Nat}
    (h : readU8 s = .ok (b, s')) : s = b :: s' := by
  cases s with
  | nil => cases h
  | cons x rest =>
    unfold readU8 at h
    cases h
    rfl

theorem readU8_mono {s : List Nat} {b : Nat} {s₁ : List Nat} (t : List Nat)
    (h : readU8 s = .ok (b, s₁)) : readU8 (s ++ t) = .ok (b, s₁ ++ t) := by
  rw [readU8_ok h]
  rfl

theorem readU16_of_le {s : List Nat} (h : 2 ≤ s.length) :
    readU16 s = .ok (leVal (s.take 2), s.drop 2) := by
  unfold readU16
  rw [readBytes_of_le h]
  rfl

theorem readU32_of_le {s : List Nat} (h : 4 ≤ s.length) :
    readU32 s = .ok (leVal (s.take 4), s.drop 4) := by
  unfold readU32
  rw [readBytes_of_le h]
  rfl

theorem readU64_of_le {s : List Nat} (h : 8 ≤ s.length) :
    readU64 s = .ok (leVal (s.take 8), s.drop 8) := by
  unfold readU64
  rw [readBytes_of_le h]
  rfl

theorem readI32_of_le {s : List Nat} (h : 4 ≤ s.length) :
    readI32 s = .ok (toI32 (leVal (s.take 4)), s.drop 4) := by
  unfold readI32
  rw [readBytes_of_le h]
  rfl

theorem readU16_ok {s : List Nat} {v : Nat} {s' : List Nat}
    (h : readU16 s = .ok (v, s')) :
    v = leVal (s.take 2) ∧ s' = s.drop 2 ∧ 2 ≤ s.length := by
  unfold readU16 at h
  cases hb : readBytes 2 s with
  | error e => rw [hb] at h; cases h
  | ok p =>
    obtain ⟨hbs, hs, hle⟩ := readBytes_ok hb
    rw [hb, except_ok_bind] at h
    cases h
    exact ⟨hbs ▸ rfl, hs, hle⟩

theorem readU32_ok {s : List Nat} {v : Nat} {s' : List Nat}
    (h : readU32 s = .ok (v, s')) :
    v = leVal (s.take 4) ∧ s' = s.drop 4 ∧ 4 ≤ s.length := by
  unfold readU32 at h
  cases hb : readBytes 4 s with
  | error e => rw [hb] at h; cases h
  | ok p =>
    obtain ⟨hbs, hs, hle⟩ := readBytes_ok hb
    rw [hb, except_ok_bind] at h
    cases h
    exact ⟨hbs ▸ rfl, hs, hle⟩

theorem readU64_ok {s : List Nat} {v : Nat} {s' : List Nat}
    (h : readU64 s = .ok (v, s')) :
    v = leVal (s.take 8) ∧ s' = s.drop 8 ∧ 8 ≤ s.length := by
  unfold readU64 at h
  cases hb : readBytes 8 s with
  | error e => rw [hb] at h; cases h
  | ok p =>
    obtain ⟨hbs, hs, hle⟩ := readBytes_ok hb
    rw [hb, except_ok_bind] at h
    cases h
    exact ⟨hbs ▸ rfl, hs, hle⟩

theorem readI32_ok {s : List Nat} {v : Int} {s' : List Nat}
    (h : readI32 s = .ok (v, s')) :
    v = toI32 (leVal (s.take 4)) ∧ s' = s.drop 4 ∧ 4 ≤ s.length := by
  unfold readI32 at h
  cases hb : readBytes 4 s with
  | error e => rw [hb] at h; cases h
  | ok p =>
    obtain ⟨hbs, hs, hle⟩ := readBytes_ok hb
    rw [hb, except_ok_bind] at h
    cases h
    exact ⟨hbs ▸ rfl, hs, hle⟩

theorem readU16_mono {s : List Nat} {v : Nat} {s₁ : List Nat} (t : List Nat)
    (h : readU16 s = .ok (v, s₁)) : readU16 (s ++ t) = .ok (v, s₁ ++ t) := by
  obtain ⟨rfl, rfl, hle⟩ := readU16_ok h
  rw [readU16_of_le (by simp; omega)]
  rw [List.take_append_of_le_length hle, List.drop_append_of_le_length hle]

theorem readU32_mono {s : List Nat} {v : Nat} {s₁ : List Nat} (t : List Nat)
    (h : readU32 s = .ok (v, s₁)) : readU32 (s ++ t) = .ok (v, s₁ ++ t) := by
  obtain ⟨rfl, rfl, hle⟩ := readU32_ok h
  rw [readU32_of_le (by simp; omega)]
  rw [List.take_append_of_le_length hle, List.drop_append_of_le_length hle]

theorem readU64_mono {s : List Nat} {v : Nat} {s₁ : List Nat} (t : List Nat)
    (h : readU64 s = .ok (v, s₁)) : readU64 (s ++ t) = .ok (v, s₁ ++ t) := by
  obtain ⟨rfl, rfl, hle⟩ := readU64_ok h
  rw [readU64_of_le (by simp; omega)]
  rw [List.take_append_of_le_length hle, List.drop_append_of_le_length hle]

theorem readI32_mono {s : List Nat} {v : Int} {s₁ : List Nat} (t : List Nat)
    (h : readI32 s = .ok (v, s₁)) : readI32 (s ++ t) = .ok (v, s₁ ++ t) := by
  obtain ⟨rfl, rfl, hle⟩ := readI32_ok h
  rw [readI32_of_le (by simp; omega)]
  rw [List.take_append_of_le_length hle, List.drop_append_of_le_length hle]

/-! ## Lemmas about the format-discriminant conversion -/

theorem tryFrom_of_ge {b : Nat} (h : 5 ≤ b) :
    EntryDataFormat.tryFrom b = .error (.unknownEntryDataFormat b) := by
  unfold EntryDataFormat.tryFrom
  rw [if_neg (by omega), if_neg (by omega), if_neg (by omega),
    if_neg (by omega), if_neg (by omega)]

theorem tryFrom_error {b : Nat} {e : WadError}
    (h : EntryDataFormat.tryFrom b = .error e) :
    e = .unknownEntryDataFormat b := by
  rcases Nat.lt_or_ge b 5 with hb | hb
  · interval_cases b <;> simp [EntryDataFormat.tryFrom] at h
  · rw [tryFrom_of_ge hb] at h
    cases h
    rfl

theorem bind_ok_inv {α β : Type} {x : Except WadError α} {f : α → Except WadError β}
    {b : β} (h : (x >>= f) = .ok b) : ∃ a, x = .ok a ∧ f a = .ok b := by
  cases x with
  | error e => rw [except_error_bind] at h; cases h
  | ok a => exact ⟨a, rfl, h⟩

/-! ## Characterization of a successful entry decode -/

/-- Full inversion of `Entry.read`: a successful decode determines every
field of the produced entry from the stream bytes, consumes exactly 24
bytes (no checksum, major < 2) or 32 bytes (8-byte checksum, major ≥ 2),
and the checksum tag is a pure function of `(major, minor)`. -/
theorem entry_read_ok_char {major minor : Nat} {s : List Nat} {e : Entry}
    {s' : List Nat} (h : Entry.read major minor s = .ok (e, s')) :
    e.xxhash = leVal (s.take 8) ∧
    e.dataOffset = leVal ((s.drop 8).take 4) ∧
    e.compressedSize = toI32 (leVal ((s.drop 12).take 4)) ∧
    e.uncompressedSize = toI32 (leVal ((s.drop 16).take 4)) ∧
    (∃ fb, s[20]? = some fb ∧ EntryDataFormat.tryFrom fb = .ok e.dataFormat) ∧
    (∃ db, s[21]? = some db ∧ e.isDuplicated = (db == 1)) ∧
    e.dataChecksum = (if 2 ≤ major then
        (if major = 3 ∧ minor = 1 then EntryDataChecksum.xxHash3 ((s.drop 24).take 8)
         else EntryDataChecksum.sha256 ((s.drop 24).take 8))
      else EntryDataChecksum.none) ∧
    (if 2 ≤ major then 32 else 24) ≤ s.length ∧
    s' = s.drop (if 2 ≤ major then 32 else 24) := by
  unfold Entry.read at h
  obtain ⟨⟨xh, s1⟩, h1, h⟩ := bind_ok_inv h
  obtain ⟨hxh, hs1, hl1⟩ := readU64_ok h1
  obtain ⟨⟨off, s2⟩, h2, h⟩ := bind_ok_inv h
  obtain ⟨hoff, hs2, hl2⟩ := readU32_ok h2
  obtain ⟨⟨cs, s3⟩, h3, h⟩ := bind_ok_inv h
  obtain ⟨hcs, hs3, hl3⟩ := readI32_ok h3
  obtain ⟨⟨us, s4⟩, h4, h⟩ := bind_ok_inv h
  obtain ⟨hus, hs4, hl4⟩ := readI32_ok h4
  obtain ⟨⟨fb, s5⟩, h5, h⟩ := bind_ok_inv h
  have hs4c : s4 = fb :: s5 := readU8_ok h5
  obtain ⟨fmt, hfmt, h⟩ := bind_ok_inv h
  obtain ⟨⟨db, s6⟩, h6, h⟩ := bind_ok_inv h
  have hs5c : s5 = db :: s6 := readU8_ok h6
  obtain ⟨⟨r16, s7⟩, h7, h⟩ := bind_ok_inv h
  obtain ⟨hr16, hs7, hl7⟩ := readU16_ok h7
  obtain ⟨⟨ck, s8⟩, hck, h⟩ := bind_ok_inv h
  -- Normalize the stream positions to drops of the original stream.
  have e1 : s1 = s.drop 8 := hs1
  have e2 : s2 = s.drop 12 := by rw [hs2, e1, List.drop_drop]
  have e3 : s3 = s.drop 16 := by rw [hs3, e2, List.drop_drop]
  have e4 : s4 = s.drop 20 := by rw [hs4, e3, List.drop_drop]
  have e5 : s5 = s.drop 21 := by
    have : (s.drop 20).drop 1 = s.drop 21 := by rw [List.drop_drop]
    rw [← this, ← e4, hs4c]
    rfl
  have e6 : s6 = s.drop 22 := by
    have : (s.drop 21).drop 1 = s.drop 22 := by rw [List.drop_drop]
    rw [← this, ← e5, hs5c]
    rfl
  have e7 : s7 = s.drop 24 := by rw [hs7, e6, List.drop_drop]
  have hfb : s[20]? = some fb := by
    have h0 : (s.drop 20)[0]? = some fb := by rw [← e4, hs4c]; simp
    rw [List.getElem?_drop] at h0
    exact h0
  have hdb : s[21]? = some db := by
    have h0 : (s.drop 21)[0]? = some db := by rw [← e5, hs5c]; simp
    rw [List.getElem?_drop] at h0
    exact h0
  have hlen21 : 22 ≤ s.length := by
    have : (s.drop 21).length = s.length - 21 := List.length_drop 21 s
    rw [← e5, hs5c] at this
    simp at this
    omega
  have hlen24 : 24 ≤ s.length := by
    rw [e6] at hl7
    simp [List.length_drop] at hl7
    omega
  -- Resolve the checksum branch.
  unfold readChecksum at hck
  rcases Nat.lt_or_ge major 2 with hm | hm
  · rw [if_neg (by omega)] at hck
    cases hck
    cases h
    refine ⟨hxh, by rw [hoff, e1], by rw [hcs, e2], by rw [hus, e3],
      ⟨fb, hfb, ?_⟩, ⟨db, hdb, rfl⟩, ?_, ?_, ?_⟩
    · rw [hfmt]
    · rw [if_neg (by omega)]
    · rw [if_neg (by omega)]; exact hlen24
    · rw [if_neg (by omega), e7]
  · rw [if_pos hm] at hck
    by_cases h31 : major = 3 ∧ minor = 1
    · rw [if_pos h31] at hck
      obtain ⟨⟨bs, s9⟩, hb8, hck⟩ := bind_ok_inv hck
      obtain ⟨hbs, hs9, hl9⟩ := readBytes_ok hb8
      cases hck
      cases h
      have hlen32 : 32 ≤ s.length := by
        rw [e7] at hl9
        simp [List.length_drop] at hl9
        omega
      refine ⟨hxh, by rw [hoff, e1], by rw [hcs, e2], by rw [hus, e3],
        ⟨fb, hfb, ?_⟩, ⟨db, hdb, rfl⟩, ?_, ?_, ?_⟩
      · rw [hfmt]
      · rw [if_pos hm, if_pos h31, hbs, e7]
      · rw [if_pos hm]; exact hlen32
      · rw [if_pos hm, hs9, e7, List.drop_drop]
    · rw [if_neg h31] at hck
      obtain ⟨⟨bs, s9⟩, hb8, hck⟩ := bind_ok_inv hck
      obtain ⟨hbs, hs9, hl9⟩ := readBytes_ok hb8
      cases hck
      cases h
      have hlen32 : 32 ≤ s.length := by
        rw [e7] at hl9
        simp [List.length_drop] at hl9
        omega
      refine ⟨hxh, by rw [hoff, e1], by rw [hcs, e2], by rw [hus, e3],
        ⟨fb, hfb, ?_⟩, ⟨db, hdb, rfl⟩, ?_, ?_, ?_⟩
      · rw [hfmt]
      · rw [if_pos hm, if_neg h31, hbs, e7]
      · rw [if_pos hm]; exact hlen32
      · rw [if_pos hm, hs9, e7, List.drop_drop]

/-! ## Monotonicity: a successful decode is unaffected by extra bytes
appended after the consumed prefix -/

theorem readChecksum_mono {major minor : Nat} {s : List Nat}
    {ck : EntryDataChecksum} {s₁ : List Nat} (t : List Nat)
    (h : readChecksum major minor s = .ok (ck, s₁)) :
    readChecksum major minor (s ++ t) = .ok (ck, s₁ ++ t) := by
  unfold readChecksum at h ⊢
  rcases Nat.lt_or_ge major 2 with hm | hm
  · rw [if_neg (by omega)] at h ⊢
    cases h
    rfl
  · rw [if_pos hm] at h ⊢
    by_cases h31 : major = 3 ∧ minor = 1
    · rw [if_pos h31] at h ⊢
      obtain ⟨⟨bs, s₂⟩, hb, h⟩ := bind_ok_inv h
      simp only [readBytes_mono t hb, except_ok_bind]
      cases h
      rfl
    · rw [if_neg h31] at h ⊢
      obtain ⟨⟨bs, s₂⟩, hb, h⟩ := bind_ok_inv h
      simp only [readBytes_mono t hb, except_ok_bind]
      cases h
      rfl

theorem entry_read_mono {major minor : Nat} {s : List Nat} {e : Entry}
    {s₁ : List Nat} (t : List Nat)
    (h : Entry.read major minor s = .ok (e, s₁)) :
    Entry.read major minor (s ++ t) = .ok (e, s₁ ++ t) := by
  unfold Entry.read at h ⊢
  obtain ⟨⟨xh, sa⟩, h1, h⟩ := bind_ok_inv h
  simp only [readU64_mono t h1, except_ok_bind]
  obtain ⟨⟨off, sb⟩, h2, h⟩ := bind_ok_inv h
  simp only [readU32_mono t h2, except_ok_bind]
  obtain ⟨⟨cs, sc⟩, h3, h⟩ := bind_ok_inv h
  simp only [readI32_mono t h3, except_ok_bind]
  obtain ⟨⟨us, sd⟩, h4, h⟩ := bind_ok_inv h
  simp only [readI32_mono t h4, except_ok_bind]
  obtain ⟨⟨fb, se⟩, h5, h⟩ := bind_ok_inv h
  simp only [readU8_mono t h5, except_ok_bind]
  obtain ⟨fmt, hfmt, h⟩ := bind_ok_inv h
  simp only [hfmt, except_ok_bind]
  obtain ⟨⟨db, sf⟩, h6, h⟩ := bind_ok_inv h
  simp only [readU8_mono t h6, except_ok_bind]
  obtain ⟨⟨r16, sg⟩, h7, h⟩ := bind_ok_inv h
  simp only [readU16_mono t h7, except_ok_bind]
  obtain ⟨⟨ck, sh'⟩, hck, h⟩ := bind_ok_inv h
  simp only [readChecksum_mono t hck, except_ok_bind]
  cases h
  rfl

/-! ## Error characterizations: which error kinds each layer can produce -/

theorem readBytes_error {n : Nat} {s : List Nat} {e : WadError}
    (h : readBytes n s = .error e) : e = .ioError := by
  unfold readBytes at h
  split at h
  · cases h
  · cases h
    rfl

theorem readU8_error {s : List Nat} {e : WadError}
    (h : readU8 s = .error e) : e = .ioError := by
  cases s with
  | nil => cases h; rfl
  | cons b rest => cases h

theorem bind_error_inv {α β : Type} {x : Except WadError α}
    {f : α → Except WadError β} {e : WadError} (h : (x >>= f) = .error e) :
    x = .error e ∨ ∃ a, x = .ok a ∧ f a = .error e := by
  cases x with
  | error e' => rw [except_error_bind] at h; cases h; exact Or.inl rfl
  | ok a => exact Or.inr ⟨a, rfl, h⟩

theorem readU16_error {s : List Nat} {e : WadError}
    (h : readU16 s = .error e) : e = .ioError := by
  unfold readU16 at h
  rcases bind_error_inv h with h' | ⟨a, _, h'⟩
  · exact readBytes_error h'
  · cases h'

theorem readU32_error {s : List Nat} {e : WadError}
    (h : readU32 s = .error e) : e = .ioError := by
  unfold readU32 at h
  rcases bind_error_inv h with h' | ⟨a, _, h'⟩
  · exact readBytes_error h'
  · cases h'

theorem readU64_error {s : List Nat} {e : WadError}
    (h : readU64 s = .error e) : e = .ioError := by
  unfold readU64 at h
  rcases bind_error_inv h with h' | ⟨a, _, h'⟩
  · exact readBytes_error h'
  · cases h'

theorem readI32_error {s : List Nat} {e : WadError}
    (h : readI32 s = .error e) : e = .ioError := by
  unfold readI32 at h
  rcases bind_error_inv h with h' | ⟨a, _, h'⟩
  · exact readBytes_error h'
  · cases h'

theorem readChecksum_error {major minor : Nat} {s : List Nat} {e : WadError}
    (h : readChecksum major minor s = .error e) : e = .ioError := by
  unfold readChecksum at h
  rcases Nat.lt_or_ge major 2 with hm | hm
  · rw [if_neg (by omega)] at h
    cases h
  · rw [if_pos hm] at h
    by_cases h31 : major = 3 ∧ minor = 1
    · rw [if_pos h31] at h
      rcases bind_error_inv h with h' | ⟨a, _, h'⟩
      · exact readBytes_error h'
      · obtain ⟨bs, s₂⟩ := a
        cases h'
    · rw [if_neg h31] at h
      rcases bind_error_inv h with h' | ⟨a, _, h'⟩
      · exact readBytes_error h'
      · obtain ⟨bs, s₂⟩ := a
        cases h'

/-- `Entry::read` can only fail with an I/O error or an unknown-format
error; in particular it never produces a version or signature error. -/
theorem entry_read_error {major minor : Nat} {s : List Nat} {e : WadError}
    (h : Entry.read major minor s = .error e) :
    e = .ioError ∨ ∃ b, e = .unknownEntryDataFormat b := by
  unfold Entry.read at h
  rcases bind_error_inv h with h' | ⟨⟨xh, sa⟩, _, h⟩
  · exact Or.inl (readU64_error h')
  rcases bind_error_inv h with h' | ⟨⟨off, sb⟩, _, h⟩
  · exact Or.inl (readU32_error h')
  rcases bind_error_inv h with h' | ⟨⟨cs, sc⟩, _, h⟩
  · exact Or.inl (readI32_error h')
  rcases bind_error_inv h with h' | ⟨⟨us, sd⟩, _, h⟩
  · exact Or.inl (readI32_error h')
  rcases bind_error_inv h with h' | ⟨⟨fb, se⟩, _, h⟩
  · exact Or.inl (readU8_error h')
  rcases bind_error_inv h with h' | ⟨fmt, _, h⟩
  · exact Or.inr ⟨fb, tryFrom_error h'⟩
  rcases bind_error_inv h with h' | ⟨⟨db, sf⟩, _, h⟩
  · exact Or.inl (readU8_error h')
  rcases bind_error_inv h with h' | ⟨⟨r16, sg⟩, _, h⟩
  · exact Or.inl (readU16_error h')
  rcases bind_error_inv h with h' | ⟨⟨ck, sh'⟩, _, h⟩
  · exact Or.inl (readChecksum_error h')
  cases h

/-! ## The directory-build loop -/

theorem processEntries_zero (major minor : Nat) (acc : List (Nat × Entry))
    (s : List Nat) : processEntries major minor 0 acc s = .ok (acc, s) := rfl

theorem processEntries_succ (major minor n : Nat) (acc : List (Nat × Entry))
    (s : List Nat) :
    processEntries major minor (n + 1) acc s = (do
      let (entry, s) ← Entry.read major minor s
      match lookupEntry acc entry.xxhash with
      | some _ => Except.error (.duplicateEntry entry.xxhash)
      | Option.none =>
          processEntries major minor n (acc ++ [(entry.xxhash, entry)]) s) := rfl

theorem lookupEntry_eq_none_iff {m : List (Nat × Entry)} {k : Nat} :
    lookupEntry m k = Option.none ↔ k ∉ m.map Prod.fst := by
  induction m with
  | nil => simp [lookupEntry]
  | cons p rest ih =>
    obtain ⟨k', v⟩ := p
    by_cases hk : k' = k
    · subst hk
      simp [lookupEntry]
    · simp [lookupEntry, hk, ih, Ne.symm hk]

theorem lookupEntry_append_self {m : List (Nat × Entry)} {k : Nat} {v : Entry}
    (h : lookupEntry m k = Option.none) :
    lookupEntry (m ++ [(k, v)]) k = some v := by
  induction m with
  | nil => simp [lookupEntry]
  | cons p rest ih =>
    obtain ⟨k', w⟩ := p
    simp only [List.cons_append, lookupEntry] at h ⊢
    by_cases hk : k' = k
    · rw [if_pos hk] at h
      cases h
    · rw [if_neg hk] at h ⊢
      exact ih h

/-- The loop of `Wad::read` preserves the directory invariant: every key
equals its entry's hash, and keys are pairwise distinct. -/
theorem processEntries_inv {major minor : Nat} :
    ∀ (n : Nat) (acc : List (Nat × Entry)) (s : List Nat)
      (m : List (Nat × Entry)) (s' : List Nat),
      processEntries major minor n acc s = .ok (m, s') →
      (∀ k v, (k, v) ∈ acc → k = v.xxhash) → (acc.map Prod.fst).Nodup →
      (∀ k v, (k, v) ∈ m → k = v.xxhash) ∧ (m.map Prod.fst).Nodup := by
  intro n
  induction n with
  | zero =>
    intro acc s m s' h hk hn
    rw [processEntries_zero] at h
    cases h
    exact ⟨hk, hn⟩
  | succ n ih =>
    intro acc s m s' h hk hn
    rw [processEntries_succ] at h
    obtain ⟨⟨entry, s₁⟩, he, h⟩ := bind_ok_inv h
    cases hl : lookupEntry acc entry.xxhash with
    | some v => simp only [hl] at h; cases h
    | none =>
      simp only [hl] at h
      refine ih _ _ _ _ h ?_ ?_
      · intro k v hmem
        rcases List.mem_append.mp hmem with hmem | hmem
        · exact hk k v hmem
        · simp at hmem
          obtain ⟨rfl, rfl⟩ := hmem
          rfl
      · rw [List.map_append, List.nodup_append]
        refine ⟨hn, by simp, ?_⟩
        intro a ha hb
        simp at hb
        subst hb
        exact (lookupEntry_eq_none_iff.mp hl) ha

/-- Two entry chunks decoding to the same hash make the loop fail with
`DuplicateEntry` of that hash, whatever bytes follow. -/
theorem processEntries_dup {major minor k : Nat} {acc : List (Nat × Entry)}
    {c1 c2 rest : List Nat} {e1 e2 : Entry}
    (h1 : Entry.read major minor c1 = .ok (e1, []))
    (h2 : Entry.read major minor c2 = .ok (e2, []))
    (hdup : e2.xxhash = e1.xxhash)
    (hacc : lookupEntry acc e1.xxhash = Option.none) :
    processEntries major minor (k + 2) acc (c1 ++ (c2 ++ rest)) =
      .error (.duplicateEntry e1.xxhash) := by
  have g1 := entry_read_mono (c2 ++ rest) h1
  rw [List.nil_append] at g1
  have step1 : processEntries major minor (k + 2) acc (c1 ++ (c2 ++ rest)) =
      processEntries major minor (k + 1)
        (acc ++ [(e1.xxhash, e1)]) (c2 ++ rest) := by
    rw [show k + 2 = (k + 1) + 1 from rfl, processEntries_succ]
    simp only [g1, except_ok_bind, hacc]
  rw [step1]
  have g2 := entry_read_mono rest h2
  rw [List.nil_append] at g2
  rw [processEntries_succ]
  simp only [g2, except_ok_bind, hdup,
    lookupEntry_append_self hacc]

/-- The loop can only fail with an I/O error, an unknown-format error or a
duplicate-entry error. -/
theorem processEntries_error {major minor : Nat} :
    ∀ (n : Nat) (acc : List (Nat × Entry)) (s : List Nat) (e : WadError),
      processEntries major minor n acc s = .error e →
      e = .ioError ∨ (∃ b, e = .unknownEntryDataFormat b) ∨
        ∃ h, e = .duplicateEntry h := by
  intro n
  induction n with
  | zero =>
    intro acc s e h
    rw [processEntries_zero] at h
    cases h
  | succ n ih =>
    intro acc s e h
    rw [processEntries_succ] at h
    rcases bind_error_inv h with h' | ⟨⟨entry, s₁⟩, _, h⟩
    · rcases entry_read_error h' with h'' | h''
      · exact Or.inl h''
      · exact Or.inr (Or.inl h'')
    cases hl : lookupEntry acc entry.xxhash with
    | some v =>
      simp only [hl] at h
      cases h
      exact Or.inr (Or.inr ⟨entry.xxhash, rfl⟩)
    | none =>
      simp only [hl] at h
      exact ih _ _ _ h

/-! ## Header evaluation lemmas -/

theorem readU16_append {bs t : List Nat} (h : bs.length = 2) :
    readU16 (bs ++ t) = .ok (leVal bs, t) := by
  unfold readU16
  rw [readBytes_append bs t h]
  rfl

theorem readU32_append {bs t : List Nat} (h : bs.length = 4) :
    readU32 (bs ++ t) = .ok (leVal bs, t) := by
  unfold readU32
  rw [readBytes_append bs t h]
  rfl

theorem readU64_append {bs t : List Nat} (h : bs.length = 8) :
    readU64 (bs ++ t) = .ok (leVal bs, t) := by
  unfold readU64
  rw [readBytes_append bs t h]
  rfl

theorem readSignature_two {L : Nat} {sig : List Nat} (hs : sig.length = 83 - L)
    (t : List Nat) : readSignature 2 (L :: (sig ++ t)) = .ok (sig, t) := by
  unfold readSignature
  rw [if_pos rfl]
  simp only [readU8_cons, except_ok_bind, readBytes_append sig t hs]
  rfl

theorem readSignature_three {sig : List Nat} (hs : sig.length = 256)
    (t : List Nat) : readSignature 3 (sig ++ t) = .ok (sig, t) := by
  unfold readSignature
  rw [if_neg (by omega), if_pos rfl]
  simp only [readBytes_append sig t hs, except_ok_bind]
  rfl

theorem readSignature_low {major : Nat} (h2 : major ≠ 2) (h3 : major ≠ 3)
    (s : List Nat) : readSignature major s = .ok ([], s) := by
  unfold readSignature
  rw [if_neg h2, if_neg h3]
  rfl

theorem readLegacyToc_of_length {major : Nat} (hmaj : major = 1 ∨ major = 2)
    {toc : List Nat} (htoc : toc.length = 4) (t : List Nat) :
    readLegacyToc major (toc ++ t) = .ok t := by
  unfold readLegacyToc
  rw [if_pos hmaj]
  have h1 := readU16_of_le (s := toc ++ t) (by simp [htoc]; omega)
  simp only [h1, except_ok_bind]
  have h2 := readU16_of_le (s := (toc ++ t).drop 2) (by simp [htoc]; omega)
  simp only [h2, except_ok_bind]
  have h3 : ((toc ++ t).drop 2).drop 2 = t := by
    rw [List.drop_drop]
    exact List.drop_left' htoc
  rw [h3]
  rfl

theorem readLegacyToc_skip {major : Nat} (hmaj : ¬(major = 1 ∨ major = 2))
    (s : List Nat) : readLegacyToc major s = .ok s := by
  unfold readLegacyToc
  rw [if_neg hmaj]
  rfl

/-- On a stream whose first four bytes are `RW`, `major`, `minor` with a
supported major, the header decoder reduces to the version-dependent tail. -/
theorem readHeader_cons {major minor : Nat} (h : major ≤ 3) (s : List Nat) :
    Wad.readHeader (82 :: 87 :: major :: minor :: s) = (do
      let (signature, s) ← readSignature major s
      let (_u, s) ← readU64 s
      let s ← readLegacyToc major s
      pure ((major, minor, signature), s)) := by
  unfold Wad.readHeader readString
  have h2 : readBytes 2 (82 :: 87 :: major :: minor :: s) =
      .ok (rwMagic, major :: minor :: s) := by
    simpa [rwMagic] using readBytes_append [82, 87] (major :: minor :: s) rfl
  simp only [h2, except_ok_bind]
  rw [if_neg (by simp)]
  simp only [readU8_cons, except_ok_bind]
  rw [if_neg (by omega)]

theorem except_throw_bind {α β : Type} (e : WadError)
    (f : α → Except WadError β) :
    ((throw e : Except WadError α) >>= f) = Except.error e := rfl

theorem readI32_append {bs t : List Nat} (h : bs.length = 4) :
    readI32 (bs ++ t) = .ok (toI32 (leVal bs), t) := by
  unfold readI32
  rw [readBytes_append bs t h]
  rfl

theorem readSignature_error {major : Nat} {s : List Nat} {e : WadError}
    (h : readSignature major s = .error e) : e = .ioError := by
  unfold readSignature at h
  by_cases h2 : major = 2
  · rw [if_pos h2] at h
    rcases bind_error_inv h with h' | ⟨⟨L, s₁⟩, _, h⟩
    · exact readU8_error h'
    rcases bind_error_inv h with h' | ⟨⟨sig, s₂⟩, _, h⟩
    · exact readBytes_error h'
    cases h
  · rw [if_neg h2] at h
    by_cases h3 : major = 3
    · rw [if_pos h3] at h
      rcases bind_error_inv h with h' | ⟨⟨sig, s₂⟩, _, h⟩
      · exact readBytes_error h'
      cases h
    · rw [if_neg h3] at h
      cases h

theorem readLegacyToc_error {major : Nat} {s : List Nat} {e : WadError}
    (h : readLegacyToc major s = .error e) : e = .ioError := by
  unfold readLegacyToc at h
  by_cases hm : major = 1 ∨ major = 2
  · rw [if_pos hm] at h
    rcases bind_error_inv h with h' | ⟨⟨x, s₁⟩, _, h⟩
    · exact readU16_error h'
    rcases bind_error_inv h with h' | ⟨⟨y, s₂⟩, _, h⟩
    · exact readU16_error h'
    cases h
  · rw [if_neg hm] at h
    cases h

/-- A major version byte above 3 makes the header decoder fail with
`UnsupportedVersion` carrying both version bytes. -/
theorem readHeader_unsupported {major minor : Nat} (h : 3 < major)
    (rest : List Nat) :
    Wad.readHeader (82 :: 87 :: major :: minor :: rest) =
      .error (.unsupportedVersion major minor) := by
  unfold Wad.readHeader readString
  have h2 : readBytes 2 (82 :: 87 :: major :: minor :: rest) =
      .ok (rwMagic, major :: minor :: rest) := by
    simpa [rwMagic] using readBytes_append [82, 87] (major :: minor :: rest) rfl
  simp only [h2, except_ok_bind]
  rw [if_neg (by simp)]
  simp only [readU8_cons, except_ok_bind]
  rw [if_pos h]
  rfl

/-! ## Claim theorems -/

/-- C1: for every successfully decoded archive, every key of the directory
mapping equals the `xxhash` (content hash) of the entry stored under it,
and no two entries share a key. -/
theorem c1_directory_key_invariant (s : List Nat) (w : Wad) (s' : List Nat)
    (h : Wad.read s = .ok (w, s')) :
    (∀ k v, (k, v) ∈ w.entries → k = v.xxhash) ∧
      (w.entries.map Prod.fst).Nodup := by
  unfold Wad.read at h
  obtain ⟨⟨⟨major, minor, sig⟩, s₁⟩, hh, h⟩ := bind_ok_inv h
  obtain ⟨⟨cnt, s₂⟩, hc, h⟩ := bind_ok_inv h
  obtain ⟨⟨entries, s₃⟩, hp, h⟩ := bind_ok_inv h
  cases h
  exact processEntries_inv _ _ _ _ _ hp (by simp) (by simp)

theorem c1_directory_key_invariant_witness :
    (({ signature := [], entries := [(0,
        { xxhash := 0, compressedSize := 0, uncompressedSize := 0,
          dataFormat := EntryDataFormat.raw,
          dataChecksum := EntryDataChecksum.none,
          dataOffset := 0, isDuplicated := false })] } : Wad).entries.map
        Prod.fst).Nodup :=
  (c1_directory_key_invariant
    (82 :: 87 :: 0 :: 0 ::
      (List.replicate 8 0 ++ ([1, 0, 0, 0] ++ List.replicate 24 0)))
    { signature := [], entries := [(0,
        { xxhash := 0, compressedSize := 0, uncompressedSize := 0,
          dataFormat := EntryDataFormat.raw,
          dataChecksum := EntryDataChecksum.none,
          dataOffset := 0, isDuplicated := false })] }
    [] (by decide)).2

/-- C2: the checksum variant of a decoded entry is a pure function of the
`(major, minor)` version pair: `None` for major < 2 with exactly 24 bytes
consumed, and for major ≥ 2 an 8-byte block tagged `XxHash3` exactly when
major = 3 and minor = 1, tagged `Sha256` for every other major ≥ 2. -/
theorem c2_checksum_variant_by_version (major minor : Nat) (s : List Nat)
    (e : Entry) (s' : List Nat) (h : Entry.read major minor s = .ok (e, s')) :
    (major < 2 → e.dataChecksum = EntryDataChecksum.none ∧ s' = s.drop 24) ∧
    (2 ≤ major →
      8 ≤ (s.drop 24).length ∧
      ((major = 3 ∧ minor = 1) →
        e.dataChecksum = EntryDataChecksum.xxHash3 ((s.drop 24).take 8)) ∧
      (¬(major = 3 ∧ minor = 1) →
        e.dataChecksum = EntryDataChecksum.sha256 ((s.drop 24).take 8))) := by
  obtain ⟨-, -, -, -, -, -, hck, hlen, hs'⟩ := entry_read_ok_char h
  constructor
  · intro hm
    rw [if_neg (by omega)] at hck
    rw [if_neg (by omega)] at hs'
    exact ⟨hck, hs'⟩
  · intro hm
    rw [if_pos hm] at hck
    rw [if_pos hm] at hlen
    refine ⟨by simp [List.length_drop]; omega, ?_, ?_⟩
    · intro h31
      rw [if_pos h31] at hck
      exact hck
    · intro h31
      rw [if_neg h31] at hck
      exact hck

theorem c2_checksum_variant_by_version_witness :
    ({ xxhash := 0, compressedSize := 0, uncompressedSize := 0,
       dataFormat := EntryDataFormat.raw,
       dataChecksum := EntryDataChecksum.xxHash3 [1, 2, 3, 4, 5, 6, 7, 8],
       dataOffset := 0, isDuplicated := false } : Entry).dataChecksum =
      EntryDataChecksum.xxHash3
        (((List.replicate 24 0 ++ [1, 2, 3, 4, 5, 6, 7, 8]).drop 24).take 8) :=
  ((c2_checksum_variant_by_version 3 1
      (List.replicate 24 0 ++ [1, 2, 3, 4, 5, 6, 7, 8])
      { xxhash := 0, compressedSize := 0, uncompressedSize := 0,
        dataFormat := EntryDataFormat.raw,
        dataChecksum := EntryDataChecksum.xxHash3 [1, 2, 3, 4, 5, 6, 7, 8],
        dataOffset := 0, isDuplicated := false }
      [] (by decide)).2 (by omega)).2.1 ⟨rfl, rfl⟩

/-- C8 (amended): decoding one entry record consumes exactly 24 bytes when
no checksum block is present (major < 2) and exactly 32 bytes when the
checksum block is present (major ≥ 2) — not 26 as the spec table states. -/
theorem c8_entry_size_amended (major minor : Nat) (s : List Nat) (e : Entry)
    (s' : List Nat) (h : Entry.read major minor s = .ok (e, s')) :
    (major < 2 → s' = s.drop 24 ∧ 24 ≤ s.length) ∧
    (2 ≤ major → s' = s.drop 32 ∧ 32 ≤ s.length) := by
  obtain ⟨-, -, -, -, -, -, -, hlen, hs'⟩ := entry_read_ok_char h
  constructor
  · intro hm
    rw [if_neg (by omega)] at hs'
    rw [if_neg (by omega)] at hlen
    exact ⟨hs', hlen⟩
  · intro hm
    rw [if_pos hm] at hs'
    rw [if_pos hm] at hlen
    exact ⟨hs', hlen⟩

/-- C8 counterexample to the claimed 26-byte entry size: with a checksum
block (major ≥ 2) a 26-byte stream is insufficient (decode fails with an
I/O error), while a 32-byte stream is consumed exactly. -/
theorem c8_entry_size_counterexample :
    Entry.read 2 0 (List.replicate 26 0) = .error .ioError ∧
    Entry.read 2 0 (List.replicate 32 0) =
      .ok ({ xxhash := 0, compressedSize := 0, uncompressedSize := 0,
             dataFormat := EntryDataFormat.raw,
             dataChecksum := EntryDataChecksum.sha256 (List.replicate 8 0),
             dataOffset := 0, isDuplicated := false }, []) ∧
    (List.replicate 26 0).length = 26 :=
  ⟨by decide, by decide, by decide⟩

theorem c8_entry_size_amended_witness :
    ([] : List Nat) = (List.replicate 32 0).drop 32 ∧
      32 ≤ (List.replicate 32 0).length :=
  (c8_entry_size_amended 2 0 (List.replicate 32 0)
    { xxhash := 0, compressedSize := 0, uncompressedSize := 0,
      dataFormat := EntryDataFormat.raw,
      dataChecksum := EntryDataChecksum.sha256 (List.replicate 8 0),
      dataOffset := 0, isDuplicated := false }
    [] (by decide)).2 (by omega)

/-- C9: decoding is deterministic — two decodes of the same buffer agree on
the directory key list, on the entry looked up under every key, on the
signature, and on the remaining stream. -/
theorem c9_deterministic (s : List Nat) (w₁ w₂ : Wad) (r₁ r₂ : List Nat)
    (h₁ : Wad.read s = .ok (w₁, r₁)) (h₂ : Wad.read s = .ok (w₂, r₂)) :
    w₁.entries.map Prod.fst = w₂.entries.map Prod.fst ∧
    (∀ k, lookupEntry w₁.entries k = lookupEntry w₂.entries k) ∧
    w₁.signature = w₂.signature ∧ r₁ = r₂ := by
  rw [h₁] at h₂
  cases h₂
  exact ⟨rfl, fun k => rfl, rfl, rfl⟩

theorem c9_deterministic_witness :
    ({ signature := [], entries := [(0,
        { xxhash := 0, compressedSize := 0, uncompressedSize := 0,
          dataFormat := EntryDataFormat.raw,
          dataChecksum := EntryDataChecksum.none,
          dataOffset := 0, isDuplicated := false })] } : Wad).signature =
      ({ signature := [], entries := [(0,
        { xxhash := 0, compressedSize := 0, uncompressedSize := 0,
          dataFormat := EntryDataFormat.raw,
          dataChecksum := EntryDataChecksum.none,
          dataOffset := 0, isDuplicated := false })] } : Wad).signature :=
  (c9_deterministic
    (82 :: 87 :: 0 :: 0 ::
      (List.replicate 8 0 ++ ([1, 0, 0, 0] ++ List.replicate 24 0)))
    _ _ [] [] (by decide) (by decide)).2.2.1

/-- C10: the decoded `isDuplicated` flag is true exactly when the one-byte
duplicate-flag field (byte 21 of the entry record) equals 1; any other
byte value decodes to `false`. -/
theorem c10_duplicate_flag (major minor : Nat) (s : List Nat) (e : Entry)
    (s' : List Nat) (d : Nat) (h : Entry.read major minor s = .ok (e, s'))
    (hd : s[21]? = some d) : e.isDuplicated = (d == 1) := by
  obtain ⟨-, -, -, -, -, hdup, -, -, -⟩ := entry_read_ok_char h
  obtain ⟨db, hdb, hflag⟩ := hdup
  rw [hd] at hdb
  cases hdb
  exact hflag

theorem c10_duplicate_flag_witness :
    ({ xxhash := 0, compressedSize := 0, uncompressedSize := 0,
       dataFormat := EntryDataFormat.raw,
       dataChecksum := EntryDataChecksum.none,
       dataOffset := 0, isDuplicated := false } : Entry).isDuplicated =
      (2 == 1) :=
  c10_duplicate_flag 0 0 (List.replicate 21 0 ++ [2, 0, 0])
    { xxhash := 0, compressedSize := 0, uncompressedSize := 0,
      dataFormat := EntryDataFormat.raw,
      dataChecksum := EntryDataChecksum.none,
      dataOffset := 0, isDuplicated := false }
    [] 2 (by decide) (by decide)

/-- C4: the one-byte format discriminant maps by ordinal position to the
five enumerated values (0=Raw, 1=GZip, 2=FileRedirection, 3=Zstd,
4=Unknown); every byte outside 0..4 makes the entry decode fail with an
"unknown entry data format" error carrying the offending byte, never
silently mapping to `Unknown`. -/
theorem c4_format_discriminant :
    (EntryDataFormat.tryFrom 0 = .ok EntryDataFormat.raw ∧
     EntryDataFormat.tryFrom 1 = .ok EntryDataFormat.gZip ∧
     EntryDataFormat.tryFrom 2 = .ok EntryDataFormat.fileRedirection ∧
     EntryDataFormat.tryFrom 3 = .ok EntryDataFormat.zstd ∧
     EntryDataFormat.tryFrom 4 = .ok EntryDataFormat.unknown) ∧
    (∀ b, 5 ≤ b →
      EntryDataFormat.tryFrom b = .error (.unknownEntryDataFormat b)) ∧
    (∀ (major minor b : Nat) (pre rest : List Nat),
      pre.length = 20 → 5 ≤ b →
      Entry.read major minor (pre ++ b :: rest) =
        .error (.unknownEntryDataFormat b)) := by
  refine ⟨⟨rfl, rfl, rfl, rfl, rfl⟩, fun b hb => tryFrom_of_ge hb, ?_⟩
  intro major minor b pre rest hpre hb
  obtain ⟨p8, pr, hp8, hpr, rfl⟩ :
      ∃ p8 pr, p8.length = 8 ∧ pr.length = 12 ∧ pre = p8 ++ pr :=
    ⟨pre.take 8, pre.drop 8, by simp [hpre], by simp [hpre],
      (List.take_append_drop 8 pre).symm⟩
  obtain ⟨pa, pr2, hpa, hpr2, rfl⟩ :
      ∃ pa pr2, pa.length = 4 ∧ pr2.length = 8 ∧ pr = pa ++ pr2 :=
    ⟨pr.take 4, pr.drop 4, by simp [hpr], by simp [hpr],
      (List.take_append_drop 4 pr).symm⟩
  obtain ⟨pb, pc, hpb, hpc, rfl⟩ :
      ∃ pb pc, pb.length = 4 ∧ pc.length = 4 ∧ pr2 = pb ++ pc :=
    ⟨pr2.take 4, pr2.drop 4, by simp [hpr2], by simp [hpr2],
      (List.take_append_drop 4 pr2).symm⟩
  unfold Entry.read
  simp only [List.append_assoc, List.cons_append]
  simp only [readU64_append hp8, except_ok_bind, readU32_append hpa,
    readI32_append hpb, readI32_append hpc, readU8_cons,
    tryFrom_of_ge hb, except_error_bind]

theorem c4_format_discriminant_witness :
    EntryDataFormat.tryFrom 5 = .error (.unknownEntryDataFormat 5) ∧
    Entry.read 3 1 (List.replicate 20 0 ++ 5 :: []) =
      .error (.unknownEntryDataFormat 5) :=
  ⟨c4_format_discriminant.2.1 5 (by omega),
   c4_format_discriminant.2.2 3 1 5 (List.replicate 20 0) [] (by simp)
     (by omega)⟩

/-- C7: an input whose first two bytes are not `RW` fails with an
"invalid signature" error carrying those two bytes, whatever the rest of
the buffer holds — no version byte influences the outcome. -/
theorem c7_invalid_magic (b0 b1 : Nat) (rest : List Nat)
    (h : ¬(b0 = 82 ∧ b1 = 87)) :
    Wad.read (b0 :: b1 :: rest) = .error (.invalidSignature [b0, b1]) := by
  unfold Wad.read Wad.readHeader readString
  have h2 : readBytes 2 (b0 :: b1 :: rest) = .ok ([b0, b1], rest) := by
    simpa using readBytes_append [b0, b1] rest rfl
  simp only [h2, except_ok_bind]
  have hne : ([b0, b1] : List Nat) ≠ rwMagic := by
    simpa [rwMagic] using h
  rw [if_pos hne, except_throw_bind]

theorem c7_invalid_magic_witness :
    Wad.read (0 :: 0 :: []) = .error (.invalidSignature [0, 0]) :=
  c7_invalid_magic 0 0 [] (by omega)

/-- C6: a major version byte above 3 makes the decode fail with an
"unsupported version" error carrying both version bytes, regardless of the
remaining buffer; for major ≤ 3 no unsupported-version error is ever
produced, whatever the minor byte. -/
theorem c6_unsupported_version :
    (∀ (major minor : Nat) (rest : List Nat), 3 < major →
      Wad.read (82 :: 87 :: major :: minor :: rest) =
        .error (.unsupportedVersion major minor)) ∧
    (∀ (major minor a b : Nat) (rest : List Nat), major ≤ 3 →
      Wad.read (82 :: 87 :: major :: minor :: rest) ≠
        .error (.unsupportedVersion a b)) := by
  constructor
  · intro major minor rest h
    unfold Wad.read
    rw [readHeader_unsupported h, except_error_bind]
  · intro major minor a b rest hmaj heq
    unfold Wad.read at heq
    rw [readHeader_cons hmaj] at heq
    rcases bind_error_inv heq with h' | ⟨⟨⟨M, N, SIG⟩, S⟩, _, heq⟩
    · rcases bind_error_inv h' with h'' | ⟨⟨sig, s₁⟩, _, h'⟩
      · cases readSignature_error h''
      rcases bind_error_inv h' with h'' | ⟨⟨u, s₂⟩, _, h'⟩
      · cases readU64_error h''
      rcases bind_error_inv h' with h'' | ⟨s₃, _, h'⟩
      · cases readLegacyToc_error h''
      cases h'
    · rcases bind_error_inv heq with h' | ⟨⟨cnt, s₄⟩, _, heq⟩
      · cases readU32_error h'
      rcases bind_error_inv heq with h' | ⟨⟨en, s₅⟩, _, heq⟩
      · rcases processEntries_error _ _ _ _ h' with h'' | ⟨bb, h''⟩ | ⟨kk, h''⟩ <;>
          cases h''
      cases heq

theorem c6_unsupported_version_witness :
    Wad.read (82 :: 87 :: 4 :: 200 :: []) =
      .error (.unsupportedVersion 4 200) ∧
    Wad.read (82 :: 87 :: 0 :: 0 :: []) ≠
      .error (.unsupportedVersion 0 0) :=
  ⟨c6_unsupported_version.1 4 200 [] (by omega),
   c6_unsupported_version.2 0 0 0 0 [] (by omega)⟩

/-- C5: the signature blob and header tail are decoded per major version —
major 2 consumes a length byte `L` (0 ≤ L ≤ 83), exactly `83 − L`
signature bytes and the two 2-byte legacy TOC fields; major 3 consumes
exactly 256 signature bytes and no TOC fields; majors 0 and 1 have an
empty signature (major 1 still consumes the TOC fields); and every
well-formed header with entry count 0 decodes to an empty directory with
the leftover stream untouched. -/
theorem c5_header_layout :
    (∀ (minor L : Nat) (sig unk toc rest : List Nat),
      L ≤ 83 → sig.length = 83 - L → unk.length = 8 → toc.length = 4 →
      Wad.read (82 :: 87 :: 2 :: minor ::
          L :: (sig ++ (unk ++ (toc ++ ([0, 0, 0, 0] ++ rest))))) =
        .ok ({ signature := sig, entries := [] }, rest)) ∧
    (∀ (minor : Nat) (sig unk rest : List Nat),
      sig.length = 256 → unk.length = 8 →
      Wad.read (82 :: 87 :: 3 :: minor ::
          (sig ++ (unk ++ ([0, 0, 0, 0] ++ rest)))) =
        .ok ({ signature := sig, entries := [] }, rest)) ∧
    (∀ (minor : Nat) (unk rest : List Nat), unk.length = 8 →
      Wad.read (82 :: 87 :: 0 :: minor :: (unk ++ ([0, 0, 0, 0] ++ rest))) =
        .ok ({ signature := [], entries := [] }, rest)) ∧
    (∀ (minor : Nat) (unk toc rest : List Nat),
      unk.length = 8 → toc.length = 4 →
      Wad.read (82 :: 87 :: 1 :: minor ::
          (unk ++ (toc ++ ([0, 0, 0, 0] ++ rest)))) =
        .ok ({ signature := [], entries := [] }, rest)) := by
  have h4 : (([0, 0, 0, 0] : List Nat)).length = 4 := rfl
  have h0 : leVal [0, 0, 0, 0] = 0 := rfl
  refine ⟨?_, ?_, ?_, ?_⟩
  · intro minor L sig unk toc rest hL hsig hunk htoc
    unfold Wad.read
    rw [readHeader_cons (by omega)]
    simp only [readSignature_two hsig, readU64_append hunk,
      readLegacyToc_of_length (Or.inr rfl) htoc, readU32_append h4, h0,
      processEntries_zero, except_ok_bind, except_pure_bind]
    rfl
  · intro minor sig unk rest hsig hunk
    unfold Wad.read
    rw [readHeader_cons (by omega)]
    simp only [readSignature_three hsig, readU64_append hunk,
      @readLegacyToc_skip 3 (by omega), readU32_append h4, h0,
      processEntries_zero, except_ok_bind, except_pure_bind]
    rfl
  · intro minor unk rest hunk
    unfold Wad.read
    rw [readHeader_cons (by omega)]
    simp only [@readSignature_low 0 (by omega) (by omega), readU64_append hunk,
      @readLegacyToc_skip 0 (by omega), readU32_append h4, h0,
      processEntries_zero, except_ok_bind, except_pure_bind]
    rfl
  · intro minor unk toc rest hunk htoc
    unfold Wad.read
    rw [readHeader_cons (by omega)]
    simp only [@readSignature_low 1 (by omega) (by omega), readU64_append hunk,
      readLegacyToc_of_length (Or.inl rfl) htoc, readU32_append h4, h0,
      processEntries_zero, except_ok_bind, except_pure_bind]
    rfl

theorem c5_header_layout_witness :
    Wad.read (82 :: 87 :: 3 :: 1 ::
        (List.replicate 256 7 ++ (List.replicate 8 0 ++ ([0, 0, 0, 0] ++ [])))) =
      .ok ({ signature := List.replicate 256 7, entries := [] }, []) ∧
    (List.replicate 256 7 : List Nat).length = 256 :=
  ⟨c5_header_layout.2.1 1 (List.replicate 256 7) (List.replicate 8 0) []
      (by rw [List.length_replicate]) (by rw [List.length_replicate]),
   by rw [List.length_replicate]⟩

/-- C3: whenever two decoded entry records share the same content hash, the
archive decode fails with a "duplicate entry" error carrying that hash —
the error is independent of any bytes following the second record (so no
third entry is read), and no archive value is returned. -/
theorem c3_duplicate_entry_fails (s s₁ : List Nat) (major minor : Nat)
    (sig : List Nat) (k : Nat) (c1 c2 rest : List Nat) (e1 e2 : Entry)
    (hh : Wad.readHeader s = .ok ((major, minor, sig), s₁))
    (hc : readU32 s₁ = .ok (k + 2, c1 ++ (c2 ++ rest)))
    (h1 : Entry.read major minor c1 = .ok (e1, []))
    (h2 : Entry.read major minor c2 = .ok (e2, []))
    (hdup : e2.xxhash = e1.xxhash) :
    Wad.read s = .error (.duplicateEntry e1.xxhash) := by
  unfold Wad.read
  simp only [hh, except_ok_bind, except_pure_bind, hc]
  simp only [@processEntries_dup major minor k [] c1 c2 rest e1 e2 h1 h2 hdup
    rfl, except_error_bind]

theorem c3_duplicate_entry_fails_witness :
    Wad.read (82 :: 87 :: 0 :: 0 ::
        (List.replicate 8 0 ++ ([2, 0, 0, 0] ++
          (List.replicate 24 0 ++ (List.replicate 24 0 ++ [9, 9, 9]))))) =
      .error (.duplicateEntry 0) :=
  c3_duplicate_entry_fails
    (82 :: 87 :: 0 :: 0 ::
      (List.replicate 8 0 ++ ([2, 0, 0, 0] ++
        (List.replicate 24 0 ++ (List.replicate 24 0 ++ [9, 9, 9])))))
    ([2, 0, 0, 0] ++ (List.replicate 24 0 ++ (List.replicate 24 0 ++ [9, 9, 9])))
    0 0 [] 0 (List.replicate 24 0) (List.replicate 24 0) [9, 9, 9]
    { xxhash := 0, compressedSize := 0, uncompressedSize := 0,
      dataFormat := EntryDataFormat.raw, dataChecksum := EntryDataChecksum.none,
      dataOffset := 0, isDuplicated := false }
    { xxhash := 0, compressedSize := 0, uncompressedSize := 0,
      dataFormat := EntryDataFormat.raw, dataChecksum := EntryDataChecksum.none,
      dataOffset := 0, isDuplicated := false }
    (by decide) (by decide) (by decide) (by decide) rfl

end Wadlib
